import Mathlib

/-!
Shallow embedding of the RAMCloud log cleaner (src/src/Log.h, the 2010-2013
LogCleaner implementation part) and of the key fingerprint code
(src/src/Key.cc), together with theorems settling the frozen claims about
them.

Machine integers are modelled as `Nat` with explicit reductions modulo
`2 ^ 32` / `2 ^ 64` at the points where the C++ arithmetic can wrap.
`LogSegment` accessors (`getSegletsAllocated`, `getMemoryUtilization`, ...)
whose bodies live in headers that are not part of the source tree are
modelled as per-segment abstract values (structure fields).
-/

set_option autoImplicit false

namespace RAMCloud

/-- Reduction modulo `2 ^ 32`, the wrap of C++ `uint32_t` arithmetic. -/
def mod32 (x : Nat) : Nat := x % 4294967296

/-- Unsigned 64-bit subtraction `a - b`, wrapping around like C++ `uint64_t`. -/
def sub64 (a b : Nat) : Nat :=
  (a % 18446744073709551616 + (18446744073709551616 - b % 18446744073709551616)) %
    18446744073709551616

/-- Modelled from the spec: one entry of a segment being cleaned, as the
cleaner sees it.  `SegmentIterator`, `Buffer` and the `LogEntryHandlers`
callbacks are not under src, so an entry is abstracted to the data the
cleaner's control flow depends on: its total length in bytes, the timestamp
returned by `entryHandlers.getTimestamp` and whether the liveness check of
the relocation protocol (spec section 4.6.4 step 1) reports it live. -/
structure CleanerEntry where
  size : Nat
  timestamp : Nat
  live : Bool
deriving DecidableEq, Repr

/-- One `LogSegment` as the cleaner sees it.  The class itself is declared in
a header that is not under src; each accessor used by `LogCleaner` is
modelled as an abstract per-segment value: `liveBytes`,
`segletsAllocated` (`getSegletsAllocated()`), `memoryUtilization`
(`getMemoryUtilization()`), `diskUtilization` (`getDiskUtilization()`),
`creationTimestamp`, `lastCompactionTimestamp`, `tombstoneCount`
(`getEntryCount(LOG_ENTRY_TYPE_OBJTOMB)`) and the entries yielded by
iterating the segment. -/
structure LogSegment where
  liveBytes : Nat := 0
  segletsAllocated : Nat := 0
  memoryUtilization : Nat := 0
  diskUtilization : Nat := 0
  creationTimestamp : Nat := 0
  lastCompactionTimestamp : Nat := 0
  tombstoneCount : Nat := 0
  entries : List CleanerEntry := []
deriving DecidableEq, Repr

namespace LogCleaner

/-- Seglets needed by a compacted segment, exactly as `getSegmentToCompact`
computes it: `(100 * (liveBytes + segletSize - 1)) / segletSize /
MAX_CLEANABLE_MEMORY_UTILIZATION` in `uint32_t` arithmetic, with both
divisions rounding down.  `U` stands for
`MAX_CLEANABLE_MEMORY_UTILIZATION`, a compile-time constant whose value is
set in a header outside src, so it is kept as a parameter. -/
def segletsNeeded (segletSize U liveBytes : Nat) : Nat :=
  mod32 (100 * mod32 (liveBytes + segletSize - 1)) / segletSize / U

/-- Number of seglets `getSegmentToCompact` considers freeable for one
candidate: `segletsAllocated - segletsNeeded` when `segletsNeeded <
segletsAllocated`, and no contribution (0) otherwise. -/
def compactionDelta (segletSize U : Nat) (c : LogSegment) : Nat :=
  if segletsNeeded segletSize U c.liveBytes < c.segletsAllocated then
    c.segletsAllocated - segletsNeeded segletSize U c.liveBytes
  else 0

/-- Tombstone goodness of a candidate in the fallback scan of
`getSegmentToCompact`: `tombstoneCount * (now - lastCompactionTimestamp)`.
The subtraction is `uint64_t` and wraps; the product is carried out in
`__uint128_t`, which cannot overflow on a `uint32_t` count times a
`uint64_t` age, so plain `Nat` multiplication is exact. -/
def tombstoneGoodness (now : Nat) (c : LogSegment) : Nat :=
  c.tombstoneCount * sub64 now c.lastCompactionTimestamp

/-- Score of the best candidate seen so far (`bestDelta` respectively
`bestGoodness` in the C++ loops); both start at 0 with no candidate chosen. -/
def accScore {α : Type} (acc : Option (α × Nat)) : Nat :=
  match acc with
  | none => 0
  | some (_, d) => d

/-- Shared shape of the two selection loops of `getSegmentToCompact`: scan
the candidates in order and keep the first candidate whose score strictly
exceeds the best score seen so far. -/
def bestLoop {α : Type} (score : α → Nat) : List α → Option (α × Nat) → Option (α × Nat)
  | [], acc => acc
  | c :: rest, acc =>
      if accScore acc < score c then bestLoop score rest (some (c, score c))
      else bestLoop score rest acc

/-- First selection loop of `LogCleaner::getSegmentToCompact` (the
`segletsNeeded` / `delta` scan): keep the candidate with the largest
`delta = segletsAllocated - segletsNeeded`, subject to
`segletsNeeded < segletsAllocated && delta > bestDelta`. -/
def getSegmentToCompactLoop (segletSize U : Nat) :
    List LogSegment → Option (LogSegment × Nat) → Option (LogSegment × Nat)
  | [], best => best
  | candidate :: rest, best =>
      let needed := segletsNeeded segletSize U candidate.liveBytes
      let allocated := candidate.segletsAllocated
      let delta := allocated - needed
      if needed < allocated ∧ accScore best < delta then
        getSegmentToCompactLoop segletSize U rest (some (candidate, delta))
      else
        getSegmentToCompactLoop segletSize U rest best

/-- Fallback loop of `LogCleaner::getSegmentToCompact` (the tombstone scan):
keep the candidate with the largest `goodness = tombstoneCount *
timeSinceLastCompaction`, subject to `goodness > bestGoodness`.  The C++
loop re-reads `WallTime::secondsTimestamp()` for every candidate; the model
takes a single `now` for the whole scan. -/
def getSegmentToCompactFallbackLoop (now : Nat) :
    List LogSegment → Option (LogSegment × Nat) → Option (LogSegment × Nat)
  | [], best => best
  | candidate :: rest, best =>
      let goodness := candidate.tombstoneCount * sub64 now candidate.lastCompactionTimestamp
      if accScore best < goodness then
        getSegmentToCompactFallbackLoop now rest (some (candidate, goodness))
      else
        getSegmentToCompactFallbackLoop now rest best

/-- `LogCleaner::getSegmentToCompact`: pick the best candidate to compact in
memory.  Returns the chosen segment together with `outFreeableSeglets`
(`bestDelta` from the first loop, or 0 when the tombstone fallback chose),
or `none` when neither loop found a candidate.  Removal of the chosen
segment from the candidate vector is irrelevant to the claims and is not
modelled. -/
def getSegmentToCompact (segletSize U now : Nat) (candidates : List LogSegment) :
    Option (LogSegment × Nat) :=
  match getSegmentToCompactLoop segletSize U candidates none with
  | some (best, bestDelta) => some (best, bestDelta)
  | none =>
      match getSegmentToCompactFallbackLoop now candidates none with
      | some (best, _) => some (best, 0)
      | none => none

/-- Seglets needed according to the spec sentence for claim C1:
`⌈100 * liveBytes / (segletSize * MAX_CLEANABLE_MEMORY_UTILIZATION)⌉`,
written with the usual exact-ceiling construction. -/
def specSegletsNeeded (segletSize U liveBytes : Nat) : Nat :=
  (100 * liveBytes + segletSize * U - 1) / (segletSize * U)

/-- Freeable-seglet delta of a candidate according to the spec sentence for
claim C1 (0 when not positive). -/
def specCompactionDelta (segletSize U : Nat) (c : LogSegment) : Nat :=
  if specSegletsNeeded segletSize U c.liveBytes < c.segletsAllocated then
    c.segletsAllocated - specSegletsNeeded segletSize U c.liveBytes
  else 0

/-- Compaction selection according to the spec sentences for claim C1: the
candidate with the largest positive delta computed via the exact-ceiling
`specSegletsNeeded`, returned together with that delta. -/
def specGetSegmentToCompact (segletSize U : Nat) (candidates : List LogSegment) :
    Option (LogSegment × Nat) :=
  bestLoop (specCompactionDelta segletSize U) candidates none

/-- Selection loop of `LogCleaner::getSegmentsToClean`, scanning the
candidate vector (already sorted by descending cost-benefit) with the
running total of selected live bytes: a candidate with
`getMemoryUtilization() > MAX_CLEANABLE_MEMORY_UTILIZATION` is skipped
(`continue`), the first remaining candidate whose `liveBytes` would push the
total over `maximumLiveBytes` stops the scan (`break`), every other
candidate is selected. -/
def getSegmentsToCleanLoop (U maximumLiveBytes : Nat) :
    List LogSegment → Nat → List LogSegment
  | [], _ => []
  | candidate :: rest, totalLiveBytes =>
      if U < candidate.memoryUtilization then
        getSegmentsToCleanLoop U maximumLiveBytes rest totalLiveBytes
      else if maximumLiveBytes < totalLiveBytes + candidate.liveBytes then
        []
      else
        candidate :: getSegmentsToCleanLoop U maximumLiveBytes rest
          (totalLiveBytes + candidate.liveBytes)

/-- `LogCleaner::getSegmentsToClean` on an already cost-benefit-sorted
candidate list, with `maximumLiveBytes = MAX_LIVE_SEGMENTS_PER_DISK_PASS *
segmentSize` and `totalLiveBytes` starting at 0.  `maxLiveSegments` stands
for the constant `MAX_LIVE_SEGMENTS_PER_DISK_PASS`, whose value is set in a
header outside src. -/
def getSegmentsToClean (U maxLiveSegments segmentSize : Nat)
    (candidates : List LogSegment) : List LogSegment :=
  getSegmentsToCleanLoop U (maxLiveSegments * segmentSize) candidates 0

/-- Greedy live-byte-bounded selection used by the spec reading of claim C3:
take candidates in order while the running total of live bytes stays within
the bound, and stop at the first candidate that would exceed it. -/
def specGreedyByLiveBytes (maximumLiveBytes : Nat) :
    List LogSegment → Nat → List LogSegment
  | [], _ => []
  | c :: rest, total =>
      if maximumLiveBytes < total + c.liveBytes then []
      else c :: specGreedyByLiveBytes maximumLiveBytes rest (total + c.liveBytes)

/-- Disk-cleaning selection according to the spec sentences for claim C3:
filter the candidates to those with `memoryUtilization ≤
MAX_CLEANABLE_MEMORY_UTILIZATION`, then greedily select from the remaining
ones in order until adding a candidate would exceed
`MAX_LIVE_SEGMENTS_PER_DISK_PASS * segmentSize` total live bytes. -/
def specGetSegmentsToClean (U maxLiveSegments segmentSize : Nat)
    (candidates : List LogSegment) : List LogSegment :=
  specGreedyByLiveBytes (maxLiveSegments * segmentSize)
    (candidates.filter (fun c => decide (c.memoryUtilization ≤ U))) 0

/-- `LogCleaner::CostBenefitComparer::costBenefit`: `-1UL` (that is,
`2 ^ 64 - 1`) when the disk utilization is 0; otherwise
`((100 - utilization) * age) / utilization` in `uint64_t` arithmetic, with
the creation timestamp clamped down to `now` first so the age cannot
underflow.  `getDiskUtilization()` returns a percentage in `0..100`. -/
def costBenefit (now : Nat) (s : LogSegment) : Nat :=
  if s.diskUtilization = 0 then 18446744073709551615
  else
    let timestamp := if now < s.creationTimestamp then now else s.creationTimestamp
    let age := now - timestamp
    ((100 - s.diskUtilization) * age) % 18446744073709551616 / s.diskUtilization

/-- Result of `relocateEntry` (the `RelocStatus` of LogCleaner.h). -/
inductive RelocStatus where
  | RELOCATED
  | NOT_NEEDED
  | RELOCATION_FAILED
deriving DecidableEq, Repr

/-- Survivor segment as the relocation code sees it: the number of bytes
appended so far (`getAppendedLength()`) and the seglets it currently holds
(`getSegletsAllocated()`). -/
structure Survivor where
  appended : Nat
  segletsAllocated : Nat
deriving DecidableEq, Repr

/-- Modelled from the spec: `LogCleaner::relocateEntry` is declared in
LogCleaner.h, which is not under src.  Following spec section 4.6.4: an
entry that the external liveness callback reports dead yields `NOT_NEEDED`;
otherwise the append to the survivor is attempted, yielding
`RELOCATION_FAILED` when there is no survivor or the entry does not fit in
its remaining capacity, and `RELOCATED` on success.  `segmentSize` is the
survivor's append capacity. -/
def relocateEntry (segmentSize : Nat) (e : CleanerEntry) (survivor : Option Survivor) :
    RelocStatus :=
  if ¬ e.live then .NOT_NEEDED
  else
    match survivor with
    | none => .RELOCATION_FAILED
    | some s =>
        if segmentSize < s.appended + e.size then .RELOCATION_FAILED
        else .RELOCATED

/-- Modelled from the spec: seglets in use by a survivor
(`getSegletsInUse()`, not under src) are the seglets covering its appended
bytes. -/
def segletsCovering (segletSize bytes : Nat) : Nat :=
  (bytes + segletSize - 1) / segletSize

/-- Modelled from the spec: a survivor obtained from
`allocSideSegment(FOR_CLEANING | MUST_NOT_FAIL)` (not under src) is freshly
allocated and empty, holding the maximum number of seglets
(`segmentSize / segletSize`), as the comment in `doMemoryCleaning` states. -/
def freshSurvivor (segmentSize segletSize : Nat) : Survivor :=
  ⟨0, segmentSize / segletSize⟩

/-- `LogCleaner::closeSurvivor`, reduced to its effect on the survivor's
seglet count: `freeUnusedSeglets(getSegletsAllocated() - getSegletsInUse())`
releases the unused trailing seglets.  Replication is not modelled. -/
def closeSurvivor (segletSize : Nat) (s : Survivor) : Survivor :=
  { s with segletsAllocated :=
      s.segletsAllocated - (s.segletsAllocated - segletsCovering segletSize s.appended) }

/-- Entry-relocation loop body of `doMemoryCleaning`: relocate each source
entry into the single survivor; a `RELOCATION_FAILED` is fatal.  Metric
accounting is not modelled. -/
def doMemoryCleaningLoop (segmentSize : Nat) :
    List CleanerEntry → Survivor → Except String Survivor
  | [], survivor => .ok survivor
  | e :: rest, survivor =>
      match relocateEntry segmentSize e (some survivor) with
      | .RELOCATION_FAILED => .error "Entry did not fit into survivor"
      | .RELOCATED =>
          doMemoryCleaningLoop segmentSize rest
            { survivor with appended := survivor.appended + e.size }
      | .NOT_NEEDED => doMemoryCleaningLoop segmentSize rest survivor

/-- State threaded through `relocateLiveEntries`: the current survivor
(`NULL` initially), the survivors already closed, and the total
`entryBytesAppended`. -/
structure RelocState where
  survivor : Option Survivor
  closed : List Survivor
  entryBytesAppended : Nat
deriving DecidableEq, Repr

/-- Loop body of `LogCleaner::relocateLiveEntries` for a single entry: on
`RELOCATION_FAILED` the current survivor (if any) is closed, a fresh
survivor is allocated and pushed onto the survivor list, and the same entry
is retried on it; a second `RELOCATION_FAILED` is fatal. -/
def relocateLiveEntriesStep (segmentSize segletSize : Nat) (st : RelocState)
    (e : CleanerEntry) : Except String RelocState :=
  match relocateEntry segmentSize e st.survivor with
  | .RELOCATED =>
      .ok { st with
              survivor := st.survivor.map (fun s => { s with appended := s.appended + e.size }),
              entryBytesAppended := st.entryBytesAppended + e.size }
  | .NOT_NEEDED => .ok st
  | .RELOCATION_FAILED =>
      let closed :=
        match st.survivor with
        | some s => st.closed ++ [closeSurvivor segletSize s]
        | none => st.closed
      let fresh := freshSurvivor segmentSize segletSize
      match relocateEntry segmentSize e (some fresh) with
      | .RELOCATION_FAILED => .error "Entry did not fit into empty survivor"
      | .RELOCATED =>
          .ok { survivor := some { fresh with appended := fresh.appended + e.size },
                closed := closed,
                entryBytesAppended := st.entryBytesAppended + e.size }
      | .NOT_NEEDED =>
          .ok { survivor := some fresh, closed := closed,
                entryBytesAppended := st.entryBytesAppended }

/-- Entry loop of `LogCleaner::relocateLiveEntries`. -/
def relocateLiveEntriesGo (segmentSize segletSize : Nat) :
    List CleanerEntry → RelocState → Except String RelocState
  | [], st => .ok st
  | e :: rest, st =>
      match relocateLiveEntriesStep segmentSize segletSize st e with
      | .error msg => .error msg
      | .ok st' => relocateLiveEntriesGo segmentSize segletSize rest st'

/-- `LogCleaner::relocateLiveEntries`: stream the sorted entries into
survivors, close the last survivor, and return the survivors (with their
unused seglets freed) together with `entryBytesAppended`.  Backup syncing is
not modelled. -/
def relocateLiveEntries (segmentSize segletSize : Nat) (entries : List CleanerEntry) :
    Except String (List Survivor × Nat) :=
  match relocateLiveEntriesGo segmentSize segletSize entries ⟨none, [], 0⟩ with
  | .error msg => .error msg
  | .ok st =>
      let survivors :=
        match st.survivor with
        | some s => st.closed ++ [closeSurvivor segletSize s]
        | none => st.closed
      .ok (survivors, st.entryBytesAppended)

/-- Timestamp-ordered insertion, the effect of `TimestampComparer` inside a
sort. -/
def insertByTimestamp (e : CleanerEntry) : List CleanerEntry → List CleanerEntry
  | [] => [e]
  | x :: xs =>
      if e.timestamp < x.timestamp then e :: x :: xs
      else x :: insertByTimestamp e xs

/-- `LogCleaner::sortEntriesByTimestamp`, modelled as insertion sort (the
exact permutation produced by `std::sort` among equal timestamps is
unspecified; only the ordering matters). -/
def sortEntriesByTimestamp : List CleanerEntry → List CleanerEntry
  | [] => []
  | e :: rest => insertByTimestamp e (sortEntriesByTimestamp rest)

/-- `LogCleaner::getSortedEntries`: every entry of every segment being
cleaned, sorted by timestamp. -/
def getSortedEntries (segmentsToClean : List LogSegment) : List CleanerEntry :=
  sortEntriesByTimestamp
    (segmentsToClean.foldr (fun s acc => s.entries ++ acc) [])

/-- Outcome of one completed disk-cleaning pass, as accounted at the end of
`LogCleaner::doDiskCleaning`. -/
structure DiskPassResult where
  cleanedCount : Nat
  survivorCount : Nat
  segletsBefore : Nat
  segletsAfter : Nat
  memoryBytesFreed : Nat
  diskBytesFreed : Nat
deriving DecidableEq, Repr

/-- `LogCleaner::doDiskCleaning` on an already cost-benefit-sorted candidate
list: select segments, extract and sort their entries, relocate the live
ones into survivors, and account the pass.  `none` models both the early
return on an empty selection and the fatal paths (a failed relocation into
an empty survivor, or one of the `assert`s at the end of the pass firing),
in all of which no pass completes. -/
def doDiskCleaning (segmentSize segletSize U maxLiveSegments : Nat)
    (candidates : List LogSegment) : Option DiskPassResult :=
  let segmentsToClean := getSegmentsToClean U maxLiveSegments segmentSize candidates
  if segmentsToClean = [] then none
  else
    let entries := getSortedEntries segmentsToClean
    let maxLiveBytes := segmentsToClean.foldr (fun s a => s.liveBytes + a) 0
    let segletsBefore := segmentsToClean.foldr (fun s a => s.segletsAllocated + a) 0
    match relocateLiveEntries segmentSize segletSize entries with
    | .error _ => none
    | .ok (survivors, entryBytesAppended) =>
        let segletsAfter := survivors.foldr (fun s a => s.segletsAllocated + a) 0
        let segmentsBefore := segmentsToClean.length
        let segmentsAfter := survivors.length
        if entryBytesAppended ≤ maxLiveBytes ∧ segletsAfter ≤ segletsBefore ∧
            segmentsAfter ≤ segmentsBefore then
          some ⟨segmentsBefore, segmentsAfter, segletsBefore, segletsAfter,
                (segletsBefore - segletsAfter) * segletSize,
                (segmentsBefore - segmentsAfter) * segmentSize⟩
        else none

end LogCleaner

/-- Modelled from the spec: the log entry types (spec section 3 lists
`OBJECT`, `TOMBSTONE`, `SEGMENT_HEADER`, `SEGMENT_FOOTER` as the minimum
set); the enum itself is declared outside src. -/
inductive LogEntryType where
  | LOG_ENTRY_TYPE_OBJ
  | LOG_ENTRY_TYPE_OBJTOMB
  | LOG_ENTRY_TYPE_SEGHEADER
  | LOG_ENTRY_TYPE_SEGFOOTER
deriving DecidableEq, Repr

/-- A `Key` (src/src/Key.cc): the 64-bit table identifier, the binary string
key (its byte count is `stringKeyLength`), and the lazily cached 64-bit
hash. -/
structure Key where
  tableId : Nat
  stringKey : List (Fin 256)
  hash : Option Nat
deriving DecidableEq, Repr

namespace Key

/-- Static `Key::getHash(tableId, stringKey, stringKeyLength)`:
`MurmurHash3_x64_128` itself is not under src and is passed as an abstract
128-bit hash returning the pair `(out[0], out[1])` of 64-bit halves; the
code seeds it with `static_cast<uint32_t>(tableId)` and returns `out[0]`. -/
def getHash (murmur : List (Fin 256) → Nat → Nat × Nat) (tableId : Nat)
    (stringKey : List (Fin 256)) : Nat :=
  let tableIdSeed := tableId % 4294967296
  (murmur stringKey tableIdSeed).1

/-- Cached-hash validity: `Key::hash` is only ever filled in by
`Key::getHash()`, which computes `getHash(tableId, stringKey,
stringKeyLength)`, so a cached value always equals that hash. -/
def hashValid (murmur : List (Fin 256) → Nat → Nat × Nat) (k : Key) : Prop :=
  ∀ h, k.hash = some h → h = getHash murmur k.tableId k.stringKey

/-- `Key::operator==`: compare cached hashes first (if both are present),
then table identifiers, then key lengths, and only then the key bytes
(`bcmp` over `stringKeyLength` bytes). -/
def beq (a b : Key) : Bool :=
  if (match a.hash, b.hash with
      | some ha, some hb => decide (ha ≠ hb)
      | _, _ => false) = true then false
  else if a.tableId ≠ b.tableId then false
  else if a.stringKey.length ≠ b.stringKey.length then false
  else decide (a.stringKey = b.stringKey)

/-- `Key::Key(LogEntryType, Buffer&)`: extract `(tableId, stringKey)` from a
serialized object or tombstone.  `Object` and `ObjectTombstone` parsing is
not under src, so the two extractors are abstract functions of the buffer
bytes; any other entry type throws `FatalError`. -/
def fromLogEntry (parseObject parseTombstone : List (Fin 256) → Nat × List (Fin 256))
    (type : LogEntryType) (buffer : List (Fin 256)) : Except String Key :=
  match type with
  | .LOG_ENTRY_TYPE_OBJ =>
      .ok ⟨(parseObject buffer).1, (parseObject buffer).2, none⟩
  | .LOG_ENTRY_TYPE_OBJTOMB =>
      .ok ⟨(parseTombstone buffer).1, (parseTombstone buffer).2, none⟩
  | _ => .error "unknown Log Entry type"

end Key

namespace LogCleaner

@[simp] lemma accScore_none {α : Type} : accScore (α := α) none = 0 := rfl

@[simp] lemma accScore_some {α : Type} (c : α) (d : Nat) : accScore (some (c, d)) = d := rfl

/-- Characterization of the strict-improvement selection scan: it either
leaves the accumulator untouched (when no score beats it) or returns the
first candidate attaining the maximum score, which then beats the
accumulator, dominates the whole list, and strictly dominates everything
before it. -/
lemma bestLoop_spec {α : Type} (score : α → Nat) :
    ∀ (cs : List α) (acc : Option (α × Nat)),
      (bestLoop score cs acc = acc ∧ ∀ c ∈ cs, score c ≤ accScore acc) ∨
      (∃ pre c post, cs = pre ++ c :: post ∧
        bestLoop score cs acc = some (c, score c) ∧
        accScore acc < score c ∧
        (∀ x ∈ cs, score x ≤ score c) ∧
        (∀ x ∈ pre, score x < score c)) := by
  intro cs
  induction cs with
  | nil => intro acc; left; exact ⟨rfl, by simp⟩
  | cons c rest ih =>
    intro acc
    by_cases h : accScore acc < score c
    · have hb : bestLoop score (c :: rest) acc = bestLoop score rest (some (c, score c)) := by
        simp [bestLoop, h]
      rcases ih (some (c, score c)) with ⟨hres, hall⟩ | ⟨pre, c', post, hcs, hres, hgt, hall, hpre⟩
      · right
        refine ⟨[], c, rest, rfl, ?_, h, ?_, by simp⟩
        · rw [hb, hres]
        · intro x hx
          rcases List.mem_cons.mp hx with rfl | hx
          · exact le_refl _
          · simpa using hall x hx
      · right
        have hcc' : score c < score c' := by simpa using hgt
        refine ⟨c :: pre, c', post, by simp [hcs], by rw [hb, hres], lt_trans h hcc', ?_, ?_⟩
        · intro x hx
          rcases List.mem_cons.mp hx with rfl | hx
          · exact le_of_lt hcc'
          · exact hall x (hcs ▸ hx)
        · intro x hx
          rcases List.mem_cons.mp hx with rfl | hx
          · exact hcc'
          · exact hpre x hx
    · have hb : bestLoop score (c :: rest) acc = bestLoop score rest acc := by
        simp [bestLoop, h]
      have hce : score c ≤ accScore acc := Nat.le_of_not_lt h
      rcases ih acc with ⟨hres, hall⟩ | ⟨pre, c', post, hcs, hres, hgt, hall, hpre⟩
      · left
        refine ⟨by rw [hb, hres], ?_⟩
        intro x hx
        rcases List.mem_cons.mp hx with rfl | hx
        · exact hce
        · exact hall x hx
      · right
        refine ⟨c :: pre, c', post, by simp [hcs], by rw [hb, hres], hgt, ?_, ?_⟩
        · intro x hx
          rcases List.mem_cons.mp hx with rfl | hx
          · exact le_trans hce (le_of_lt hgt)
          · exact hall x (hcs ▸ hx)
        · intro x hx
          rcases List.mem_cons.mp hx with rfl | hx
          · exact lt_of_le_of_lt hce hgt
          · exact hpre x hx

/-- The first loop of `getSegmentToCompact` is the strict-improvement scan
over the code's delta `compactionDelta`. -/
lemma getSegmentToCompactLoop_eq_bestLoop (segletSize U : Nat) :
    ∀ (cs : List LogSegment) (best : Option (LogSegment × Nat)),
      getSegmentToCompactLoop segletSize U cs best =
        bestLoop (compactionDelta segletSize U) cs best := by
  intro cs
  induction cs with
  | nil => intro best; rfl
  | cons c rest ih =>
    intro best
    by_cases hn : segletsNeeded segletSize U c.liveBytes < c.segletsAllocated
    · have hδ : compactionDelta segletSize U c =
          c.segletsAllocated - segletsNeeded segletSize U c.liveBytes := by
        simp [compactionDelta, hn]
      by_cases hd : accScore best < c.segletsAllocated - segletsNeeded segletSize U c.liveBytes
      · simp only [getSegmentToCompactLoop, bestLoop, hδ]
        rw [if_pos ⟨hn, hd⟩, if_pos hd, ih]
      · simp only [getSegmentToCompactLoop, bestLoop, hδ]
        rw [if_neg (fun hc => hd hc.2), if_neg hd, ih]
    · have hδ : compactionDelta segletSize U c = 0 := by
        simp [compactionDelta, hn]
      simp only [getSegmentToCompactLoop, bestLoop, hδ]
      rw [if_neg (fun hc => hn hc.1), if_neg (by simp), ih]

/-- The fallback loop of `getSegmentToCompact` is the strict-improvement
scan over `tombstoneGoodness`. -/
lemma getSegmentToCompactFallbackLoop_eq_bestLoop (now : Nat) :
    ∀ (cs : List LogSegment) (best : Option (LogSegment × Nat)),
      getSegmentToCompactFallbackLoop now cs best =
        bestLoop (tombstoneGoodness now) cs best := by
  intro cs
  induction cs with
  | nil => intro best; rfl
  | cons c rest ih =>
    intro best
    simp only [getSegmentToCompactFallbackLoop, bestLoop, tombstoneGoodness]
    split <;> rw [ih]

/-- Claim C1, counterexample: the code does not compute `segletsNeeded` as
the exact ceiling `ceil(100 * liveBytes / (segletSize * U))` of the spec.
With `segletSize = 100`, `U = 90` and a candidate with `liveBytes = 90` and
two allocated seglets, the spec formula needs 1 seglet and mandates
selecting the candidate with freeable delta 1, while the code computes
`segletsNeeded = 2`, finds no positive delta, and returns no candidate. -/
theorem getSegmentToCompact_spec_formula_mismatch :
    getSegmentToCompact 100 90 0 [{ liveBytes := 90, segletsAllocated := 2 }] = none ∧
    specGetSegmentToCompact 100 90 [{ liveBytes := 90, segletsAllocated := 2 }] =
      some ({ liveBytes := 90, segletsAllocated := 2 }, 1) :=
  ⟨by decide, by decide⟩

/-- Claim C1 (amended): `getSegmentToCompact` computes for each candidate
`segletsNeeded = (100 * (liveBytes + segletSize - 1)) / segletSize /
MAX_CLEANABLE_MEMORY_UTILIZATION` with flooring integer division (an
over-approximation of the spec ceiling) and `delta = segletsAllocated -
segletsNeeded`; whenever some candidate has a positive delta it selects the
first candidate attaining the largest positive delta and returns that delta
as the number of freeable seglets, and conversely any selection with a
positive returned delta is such a first maximum. -/
theorem getSegmentToCompact_first_max_delta (segletSize U now : Nat)
    (cs : List LogSegment) :
    ((∃ c ∈ cs, 0 < compactionDelta segletSize U c) →
      ∃ pre c post, cs = pre ++ c :: post ∧
        getSegmentToCompact segletSize U now cs =
          some (c, compactionDelta segletSize U c) ∧
        0 < compactionDelta segletSize U c ∧
        (∀ x ∈ cs, compactionDelta segletSize U x ≤ compactionDelta segletSize U c) ∧
        (∀ x ∈ pre, compactionDelta segletSize U x < compactionDelta segletSize U c)) ∧
    (∀ c d, 0 < d → getSegmentToCompact segletSize U now cs = some (c, d) →
      d = compactionDelta segletSize U c ∧
      ∀ x ∈ cs, compactionDelta segletSize U x ≤ d) := by
  have hspec := bestLoop_spec (compactionDelta segletSize U) cs none
  constructor
  · rintro ⟨c0, hc0mem, hc0pos⟩
    rcases hspec with ⟨hres, hall⟩ | ⟨pre, c, post, hcs, hres, hgt, hall, hpre⟩
    · have := hall c0 hc0mem
      simp only [accScore_none, Nat.le_zero] at this
      omega
    · refine ⟨pre, c, post, hcs, ?_, by simpa using hgt, hall, hpre⟩
      unfold getSegmentToCompact
      rw [getSegmentToCompactLoop_eq_bestLoop, hres]
  · intro c d hd hres2
    unfold getSegmentToCompact at hres2
    rw [getSegmentToCompactLoop_eq_bestLoop] at hres2
    rcases hspec with ⟨hres, hall⟩ | ⟨pre, c', post, hcs, hres, hgt, hall, hpre⟩
    · rw [hres] at hres2
      rcases hfb : getSegmentToCompactFallbackLoop now cs none with _ | ⟨c'', g⟩
      · rw [hfb] at hres2
        simp at hres2
      · rw [hfb] at hres2
        simp at hres2
        omega
    · rw [hres] at hres2
      simp at hres2
      obtain ⟨rfl, rfl⟩ := hres2
      exact ⟨rfl, hall⟩

/-- Claim C1 witness: with `segletSize = 100` and `U = 90`, among two
candidates with 0 live bytes and 5 respectively 10 allocated seglets, the
selection picks the second one (delta 9, the largest). -/
theorem getSegmentToCompact_first_max_delta_inst :
    ∃ pre c post,
      ([{ liveBytes := 0, segletsAllocated := 5 },
        { liveBytes := 0, segletsAllocated := 10 }] : List LogSegment) =
        pre ++ c :: post ∧
      getSegmentToCompact 100 90 0
        [{ liveBytes := 0, segletsAllocated := 5 },
         { liveBytes := 0, segletsAllocated := 10 }] =
        some (c, compactionDelta 100 90 c) ∧
      0 < compactionDelta 100 90 c ∧
      (∀ x ∈ ([{ liveBytes := 0, segletsAllocated := 5 },
               { liveBytes := 0, segletsAllocated := 10 }] : List LogSegment),
        compactionDelta 100 90 x ≤ compactionDelta 100 90 c) ∧
      (∀ x ∈ pre, compactionDelta 100 90 x < compactionDelta 100 90 c) :=
  (getSegmentToCompact_first_max_delta 100 90 0
      [{ liveBytes := 0, segletsAllocated := 5 },
       { liveBytes := 0, segletsAllocated := 10 }]).1
    ⟨{ liveBytes := 0, segletsAllocated := 10 }, by decide, by decide⟩

/-- Claim C5, counterexample: a candidate can carry tombstones and still be
rejected by the fallback, because the code requires strictly positive
`goodness = tombstoneCount * (now - lastCompactionTimestamp)`.  A candidate
with 5 tombstones last compacted at the current second (`now = 7`) has
goodness 0: no candidate yields a positive delta, yet `getSegmentToCompact`
returns no segment rather than this tombstone-bearing candidate. -/
theorem getSegmentToCompact_zero_goodness_counterexample :
    getSegmentToCompactLoop 100 90
      [{ liveBytes := 90, segletsAllocated := 2, tombstoneCount := 5,
         lastCompactionTimestamp := 7 }] none = none ∧
    ({ liveBytes := 90, segletsAllocated := 2, tombstoneCount := 5,
       lastCompactionTimestamp := 7 } : LogSegment).tombstoneCount ≠ 0 ∧
    getSegmentToCompact 100 90 7
      [{ liveBytes := 90, segletsAllocated := 2, tombstoneCount := 5,
         lastCompactionTimestamp := 7 }] = none :=
  ⟨by decide, by decide, by decide⟩

/-- Claim C5 (amended): when no candidate yields a positive delta,
`getSegmentToCompact` selects the first candidate attaining the largest
strictly positive `goodness = tombstoneCount * (now -
lastCompactionTimestamp)` and returns it with `freeableSeglets = 0`; when
every candidate has goodness 0 (in particular when no candidate has any
tombstones), it returns no segment. -/
theorem getSegmentToCompact_tombstone_fallback (segletSize U now : Nat)
    (cs : List LogSegment)
    (hNoDelta : ∀ c ∈ cs, compactionDelta segletSize U c = 0) :
    ((∀ c ∈ cs, tombstoneGoodness now c = 0) →
      getSegmentToCompact segletSize U now cs = none) ∧
    ((∃ c ∈ cs, 0 < tombstoneGoodness now c) →
      ∃ pre c post, cs = pre ++ c :: post ∧
        getSegmentToCompact segletSize U now cs = some (c, 0) ∧
        0 < tombstoneGoodness now c ∧
        (∀ x ∈ cs, tombstoneGoodness now x ≤ tombstoneGoodness now c) ∧
        (∀ x ∈ pre, tombstoneGoodness now x < tombstoneGoodness now c)) := by
  have hloop1 : getSegmentToCompactLoop segletSize U cs none = none := by
    rw [getSegmentToCompactLoop_eq_bestLoop]
    rcases bestLoop_spec (compactionDelta segletSize U) cs none with
      ⟨hres, _⟩ | ⟨pre, c, post, hcs, hres, hgt, hall, hpre⟩
    · exact hres
    · have hmem : c ∈ cs := by rw [hcs]; exact List.mem_append_right _ (List.mem_cons_self _ _)
      rw [hNoDelta c hmem] at hgt
      simp at hgt
  have hfb := bestLoop_spec (tombstoneGoodness now) cs none
  constructor
  · intro hzero
    unfold getSegmentToCompact
    rw [hloop1, getSegmentToCompactFallbackLoop_eq_bestLoop]
    rcases hfb with ⟨hres, _⟩ | ⟨pre, c, post, hcs, hres, hgt, hall, hpre⟩
    · rw [hres]
    · have hmem : c ∈ cs := by rw [hcs]; exact List.mem_append_right _ (List.mem_cons_self _ _)
      rw [hzero c hmem] at hgt
      simp at hgt
  · rintro ⟨c0, hc0mem, hc0pos⟩
    rcases hfb with ⟨hres, hall⟩ | ⟨pre, c, post, hcs, hres, hgt, hall, hpre⟩
    · have := hall c0 hc0mem
      simp only [accScore_none, Nat.le_zero] at this
      omega
    · refine ⟨pre, c, post, hcs, ?_, by simpa using hgt, hall, hpre⟩
      unfold getSegmentToCompact
      rw [hloop1, getSegmentToCompactFallbackLoop_eq_bestLoop, hres]

/-- Claim C5 witness: with no positive delta anywhere, a single candidate
with 3 tombstones last compacted 5 seconds ago (goodness 15) is selected
with freeable seglets 0. -/
theorem getSegmentToCompact_tombstone_fallback_inst :
    ∃ pre c post,
      ([{ liveBytes := 90, segletsAllocated := 2, tombstoneCount := 3,
          lastCompactionTimestamp := 5 }] : List LogSegment) = pre ++ c :: post ∧
      getSegmentToCompact 100 90 10
        [{ liveBytes := 90, segletsAllocated := 2, tombstoneCount := 3,
           lastCompactionTimestamp := 5 }] = some (c, 0) ∧
      0 < tombstoneGoodness 10 c ∧
      (∀ x ∈ ([{ liveBytes := 90, segletsAllocated := 2, tombstoneCount := 3,
                 lastCompactionTimestamp := 5 }] : List LogSegment),
        tombstoneGoodness 10 x ≤ tombstoneGoodness 10 c) ∧
      (∀ x ∈ pre, tombstoneGoodness 10 x < tombstoneGoodness 10 c) :=
  (getSegmentToCompact_tombstone_fallback 100 90 10
      [{ liveBytes := 90, segletsAllocated := 2, tombstoneCount := 3,
         lastCompactionTimestamp := 5 }] (by decide)).2
    ⟨{ liveBytes := 90, segletsAllocated := 2, tombstoneCount := 3,
       lastCompactionTimestamp := 5 }, by decide, by decide⟩

/-- The selection loop of `getSegmentsToClean` equals the spec reading:
filter out the candidates over the utilization bound, then take the longest
live-byte-bounded greedy run of what remains, stopping for good at the
first excess. -/
lemma getSegmentsToCleanLoop_eq_spec (U maximumLiveBytes : Nat) :
    ∀ (cs : List LogSegment) (total : Nat),
      getSegmentsToCleanLoop U maximumLiveBytes cs total =
        specGreedyByLiveBytes maximumLiveBytes
          (cs.filter (fun c => decide (c.memoryUtilization ≤ U))) total := by
  intro cs
  induction cs with
  | nil => intro total; rfl
  | cons c rest ih =>
    intro total
    by_cases hU : U < c.memoryUtilization
    · have hf : decide (c.memoryUtilization ≤ U) = false := by
        simp [Nat.not_le_of_lt hU]
      simp only [getSegmentsToCleanLoop, List.filter_cons, hf, if_pos hU]
      exact ih total
    · have hf : decide (c.memoryUtilization ≤ U) = true := by
        simp [Nat.le_of_not_lt hU]
      simp only [getSegmentsToCleanLoop, List.filter_cons, hf, if_neg hU,
        specGreedyByLiveBytes]
      by_cases hb : maximumLiveBytes < total + c.liveBytes
      · rw [if_pos hb, if_pos hb]
      · rw [if_neg hb, if_neg hb, ih]

/-- Claim C3 (confirmed): on the cost-benefit-sorted candidate list,
`getSegmentsToClean` skips every candidate whose memory utilization exceeds
`MAX_CLEANABLE_MEMORY_UTILIZATION` and selects the remaining candidates in
order until one of them would push the selected live-byte total over
`MAX_LIVE_SEGMENTS_PER_DISK_PASS * segmentSize`; from that point on nothing
further is selected.  Stated as equality with the selection built directly
from the spec sentences. -/
theorem getSegmentsToClean_eq_spec (U maxLiveSegments segmentSize : Nat)
    (candidates : List LogSegment) :
    getSegmentsToClean U maxLiveSegments segmentSize candidates =
      specGetSegmentsToClean U maxLiveSegments segmentSize candidates :=
  getSegmentsToCleanLoop_eq_spec U (maxLiveSegments * segmentSize) candidates 0

/-- Claim C2, counterexample: for a segment whose creation timestamp lies in
the future (`creationTimestamp = 20`, `now = 10`, disk utilization 50), the
code clamps the age to 0 and returns 0, whereas the claimed exact integer
formula `((100 - u) * (now - creationTimestamp)) / u` evaluates to -10. -/
theorem costBenefit_exact_counterexample :
    costBenefit 10 { diskUtilization := 50, creationTimestamp := 20 } = 0 ∧
    ((100 - 50 : Int) * ((10 : Int) - 20)) / 50 = -10 :=
  ⟨by decide, by decide⟩

/-- Claim C2 (amended): for a segment with nonzero disk utilization `u`
whose creation timestamp does not exceed `now`, `costBenefit` returns
`((100 - u) * age) / u` with `age = now - creationTimestamp`, exactly
whenever the product fits in 64 bits (the multiplication is performed in
wrapping `uint64_t` arithmetic); a segment with `u = 0` gets the maximum
64-bit value (infinity).  A creation timestamp beyond `now` is first
clamped to `now`. -/
theorem costBenefit_exact (now : Nat) (s : LogSegment) :
    (s.diskUtilization = 0 → costBenefit now s = 18446744073709551615) ∧
    (s.diskUtilization ≠ 0 → s.creationTimestamp ≤ now →
      (100 - s.diskUtilization) * (now - s.creationTimestamp) < 18446744073709551616 →
      costBenefit now s =
        (100 - s.diskUtilization) * (now - s.creationTimestamp) / s.diskUtilization) := by
  constructor
  · intro h0
    simp [costBenefit, h0]
  · intro hu hts hfit
    have hclamp : ¬ now < s.creationTimestamp := Nat.not_lt_of_le hts
    simp only [costBenefit, if_neg hu, if_neg hclamp]
    rw [Nat.mod_eq_of_lt hfit]

/-- Claim C2 witness: a segment created 40 seconds ago at 25 percent disk
utilization has cost-benefit `(75 * 40) / 25 = 120`. -/
theorem costBenefit_exact_inst :
    costBenefit 100 { diskUtilization := 25, creationTimestamp := 60 } =
      (100 - 25) * (100 - 60) / 25 :=
  (costBenefit_exact 100 { diskUtilization := 25, creationTimestamp := 60 }).2
    (by decide) (by decide) (by decide)

/-- Claim C10 (confirmed): a segment whose creation timestamp exceeds the
comparer's `now` has its timestamp clamped down to `now`, so the age is 0
rather than an underflown `uint64_t`, and its cost-benefit is 0 whenever
its disk utilization is nonzero. -/
theorem costBenefit_clock_skew_clamped (now : Nat) (s : LogSegment)
    (hskew : now < s.creationTimestamp) (hu : s.diskUtilization ≠ 0) :
    costBenefit now s = 0 := by
  simp [costBenefit, if_neg hu, if_pos hskew]

/-- Claim C10 witness: `now = 5`, creation timestamp 9, disk utilization
50 percent gives cost-benefit 0. -/
theorem costBenefit_clock_skew_clamped_inst :
    costBenefit 5 { diskUtilization := 50, creationTimestamp := 9 } = 0 :=
  costBenefit_clock_skew_clamped 5
    { diskUtilization := 50, creationTimestamp := 9 } (by decide) (by decide)

/-- Claim C4, counterexample: a disk-cleaning pass over one segment with
500 live bytes (one live entry, 10 allocated seglets, segment size 1000,
seglet size 100) completes all its assertions and produces exactly one
survivor: the survivor count equals the cleaned count, so the claimed
strict inequality `survivorsCount < cleanedCount` fails on a completed
pass. -/
theorem doDiskCleaning_equal_counts_counterexample :
    (doDiskCleaning 1000 100 90 10
        [{ liveBytes := 500, segletsAllocated := 10, memoryUtilization := 50,
           entries := [⟨500, 0, true⟩] }]).map
        (fun r => (r.survivorCount, r.cleanedCount)) = some (1, 1) ∧
    ¬ (1 : Nat) < 1 :=
  ⟨by decide, by decide⟩

/-- Claim C4 (amended): after every completed disk-cleaning pass (one that
selected at least one segment and passed the end-of-pass assertions), the
survivors hold at most as many seglets as the cleaned segments held, and
the number of survivor segments is at most (not strictly less than) the
number of cleaned segments. -/
theorem doDiskCleaning_completed_pass_bounds
    (segmentSize segletSize U maxLiveSegments : Nat)
    (candidates : List LogSegment) (r : DiskPassResult)
    (h : doDiskCleaning segmentSize segletSize U maxLiveSegments candidates = some r) :
    r.segletsAfter ≤ r.segletsBefore ∧ r.survivorCount ≤ r.cleanedCount ∧
      0 < r.cleanedCount := by
  simp only [doDiskCleaning] at h
  split at h
  · exact absurd h (by simp)
  · rename_i hne
    split at h
    · exact absurd h (by simp)
    · rename_i survivors entryBytesAppended heq
      split at h
      · rename_i hguard
        obtain ⟨h1, h2, h3⟩ := hguard
        obtain rfl : _ = r := Option.some.inj h
        refine ⟨h2, h3, ?_⟩
        simpa [List.length_pos] using hne
      · exact absurd h (by simp)

/-- Claim C4 witness: the bounds of a completed pass, instantiated on a
concrete run cleaning two half-live segments into one survivor. -/
theorem doDiskCleaning_completed_pass_bounds_inst :
    (⟨2, 1, 20, 10, 1000, 1000⟩ : DiskPassResult).segletsAfter ≤
      (⟨2, 1, 20, 10, 1000, 1000⟩ : DiskPassResult).segletsBefore ∧
    (⟨2, 1, 20, 10, 1000, 1000⟩ : DiskPassResult).survivorCount ≤
      (⟨2, 1, 20, 10, 1000, 1000⟩ : DiskPassResult).cleanedCount ∧
    0 < (⟨2, 1, 20, 10, 1000, 1000⟩ : DiskPassResult).cleanedCount :=
  doDiskCleaning_completed_pass_bounds 1000 100 90 10
    [{ liveBytes := 500, segletsAllocated := 10, memoryUtilization := 50,
       entries := [⟨500, 3, true⟩, ⟨300, 9, false⟩] },
     { liveBytes := 500, segletsAllocated := 10, memoryUtilization := 50,
       entries := [⟨500, 1, true⟩] }]
    ⟨2, 1, 20, 10, 1000, 1000⟩ (by decide)

/-- Splitting the in-memory relocation loop over a list concatenation. -/
lemma doMemoryCleaningLoop_append (segmentSize : Nat) :
    ∀ (pre post : List CleanerEntry) (surv : Survivor),
      doMemoryCleaningLoop segmentSize (pre ++ post) surv =
        match doMemoryCleaningLoop segmentSize pre surv with
        | .ok s' => doMemoryCleaningLoop segmentSize post s'
        | .error msg => .error msg := by
  intro pre
  induction pre with
  | nil => intro post surv; rfl
  | cons e rest ih =>
    intro post surv
    simp only [List.cons_append, doMemoryCleaningLoop]
    cases relocateEntry segmentSize e (some surv) with
    | RELOCATION_FAILED => rfl
    | RELOCATED => exact ih post _
    | NOT_NEEDED => exact ih post _

/-- Claim C6 (confirmed): during in-memory compaction a `RELOCATION_FAILED`
on any entry aborts the pass with a fatal error; during disk cleaning a
`RELOCATION_FAILED` on the current survivor closes it (when one exists) and
retries the same entry on a freshly allocated empty survivor, and a second
`RELOCATION_FAILED` on that empty survivor is fatal. -/
theorem relocationFailureHandling (segmentSize segletSize : Nat)
    (pre post : List CleanerEntry) (e : CleanerEntry)
    (surv surv' : Survivor) (st : RelocState) :
    (doMemoryCleaningLoop segmentSize pre surv = .ok surv' →
      relocateEntry segmentSize e (some surv') = .RELOCATION_FAILED →
      doMemoryCleaningLoop segmentSize (pre ++ e :: post) surv =
        .error "Entry did not fit into survivor") ∧
    (relocateEntry segmentSize e st.survivor = .RELOCATION_FAILED →
      relocateEntry segmentSize e (some (freshSurvivor segmentSize segletSize)) =
        .RELOCATION_FAILED →
      relocateLiveEntriesStep segmentSize segletSize st e =
        .error "Entry did not fit into empty survivor") ∧
    (∀ s0, st.survivor = some s0 →
      relocateEntry segmentSize e (some s0) = .RELOCATION_FAILED →
      relocateEntry segmentSize e (some (freshSurvivor segmentSize segletSize)) ≠
        .RELOCATION_FAILED →
      ∃ st', relocateLiveEntriesStep segmentSize segletSize st e = .ok st' ∧
        st'.closed = st.closed ++ [closeSurvivor segletSize s0] ∧
        (st'.survivor = some ⟨e.size, segmentSize / segletSize⟩ ∨
         st'.survivor = some (freshSurvivor segmentSize segletSize))) := by
  refine ⟨?_, ?_, ?_⟩
  · intro h1 h2
    rw [doMemoryCleaningLoop_append, h1]
    simp only [doMemoryCleaningLoop, h2]
  · intro h1 h2
    simp only [relocateLiveEntriesStep, h1, h2]
  · intro s0 hs0 h1 h2
    rcases hr : relocateEntry segmentSize e (some (freshSurvivor segmentSize segletSize))
        with _ | _ | _
    · refine ⟨_, by simp only [relocateLiveEntriesStep, hs0, h1, hr]; rfl, by simp, ?_⟩
      left
      simp [freshSurvivor]
    · refine ⟨_, by simp only [relocateLiveEntriesStep, hs0, h1, hr]; rfl, by simp, ?_⟩
      right
      rfl
    · exact absurd hr h2

/-- Claim C6 witness: with segment size 1000 and seglet size 100, an
oversized live entry aborts the in-memory pass fatally; on the disk path a
500-byte entry that does not fit the current survivor (900 bytes already
appended) closes it and lands on a fresh survivor, while a 2000-byte entry
that cannot fit even an empty survivor is fatal. -/
theorem relocationFailureHandling_inst :
    doMemoryCleaningLoop 1000 ([] ++ ⟨2000, 0, true⟩ :: []) ⟨0, 10⟩ =
      .error "Entry did not fit into survivor" ∧
    relocateLiveEntriesStep 1000 100 ⟨some ⟨900, 10⟩, [], 0⟩ ⟨2000, 0, true⟩ =
      .error "Entry did not fit into empty survivor" ∧
    ∃ st', relocateLiveEntriesStep 1000 100 ⟨some ⟨900, 10⟩, [], 0⟩ ⟨500, 0, true⟩ =
        .ok st' ∧
      st'.closed = [] ++ [closeSurvivor 100 ⟨900, 10⟩] ∧
      (st'.survivor = some ⟨(500 : Nat), 1000 / 100⟩ ∨
       st'.survivor = some (freshSurvivor 1000 100)) :=
  ⟨(relocationFailureHandling 1000 100 [] [] ⟨2000, 0, true⟩ ⟨0, 10⟩ ⟨0, 10⟩
      ⟨some ⟨900, 10⟩, [], 0⟩).1 rfl (by decide),
   (relocationFailureHandling 1000 100 [] [] ⟨2000, 0, true⟩ ⟨0, 10⟩ ⟨0, 10⟩
      ⟨some ⟨900, 10⟩, [], 0⟩).2.1 (by decide) (by decide),
   (relocationFailureHandling 1000 100 [] [] ⟨500, 0, true⟩ ⟨0, 10⟩ ⟨0, 10⟩
      ⟨some ⟨900, 10⟩, [], 0⟩).2.2 ⟨900, 10⟩ rfl (by decide) (by decide)⟩

end LogCleaner

/-- Claim C7 (confirmed): `Key::getHash(tableId, stringKey,
stringKeyLength)` is a pure function of its arguments that seeds the
128-bit hash with `tableId` truncated to its low 32 bits and returns the
first 64 output bits (`out[0]`); in particular two table identifiers with
the same low 32 bits produce the same fingerprint for every key. -/
theorem Key.getHash_truncated_seed (murmur : List (Fin 256) → Nat → Nat × Nat)
    (tableId : Nat) (stringKey : List (Fin 256)) :
    Key.getHash murmur tableId stringKey =
      (murmur stringKey (tableId % 4294967296)).1 ∧
    ∀ tableId2, tableId % 4294967296 = tableId2 % 4294967296 →
      Key.getHash murmur tableId stringKey =
        Key.getHash murmur tableId2 stringKey := by
  refine ⟨rfl, ?_⟩
  intro tableId2 h
  simp [Key.getHash, h]

/-- Claim C7 witness: with a concrete 128-bit hash function, table
identifiers `2 ^ 32 + 5` and `5` (equal low 32 bits) fingerprint a
two-byte key identically. -/
theorem Key.getHash_truncated_seed_inst :
    Key.getHash (fun k s => (s + k.length, 0)) 4294967301 [0, 1] =
      ((fun (k : List (Fin 256)) (s : Nat) => (s + k.length, 0)) [0, 1]
        (4294967301 % 4294967296)).1 ∧
    Key.getHash (fun k s => (s + k.length, 0)) 4294967301 [0, 1] =
      Key.getHash (fun k s => (s + k.length, 0)) 5 [0, 1] :=
  ⟨(Key.getHash_truncated_seed (fun k s => (s + k.length, 0)) 4294967301 [0, 1]).1,
   (Key.getHash_truncated_seed (fun k s => (s + k.length, 0)) 4294967301 [0, 1]).2
     5 (by decide)⟩

/-- Claim C8 (confirmed): `Key::operator==` returns true exactly when the
two keys agree on table identifier and on the key bytes (hence also on
`stringKeyLength`), provided each cached hash was produced by
`Key::getHash` on the key's own fields — under which the
fingerprint-and-length prefilter never changes the outcome. -/
theorem Key.beq_iff_eq_fields (murmur : List (Fin 256) → Nat → Nat × Nat)
    (a b : Key) (ha : Key.hashValid murmur a) (hb : Key.hashValid murmur b) :
    Key.beq a b = true ↔ a.tableId = b.tableId ∧ a.stringKey = b.stringKey := by
  constructor
  · intro h
    unfold Key.beq at h
    split at h
    · exact absurd h (by simp)
    · split at h
      · exact absurd h (by simp)
      · split at h
        · exact absurd h (by simp)
        · rename_i hc1 hc2 hc3
          refine ⟨Decidable.not_not.mp hc2, of_decide_eq_true h⟩
  · rintro ⟨h1, h2⟩
    have hc1 : (match a.hash, b.hash with
        | some ha', some hb' => decide (ha' ≠ hb')
        | _, _ => false) = false := by
      rcases hha : a.hash with _ | ha'
      · simp
      · rcases hhb : b.hash with _ | hb'
        · simp
        · have e1 := ha ha' hha
          have e2 := hb hb' hhb
          simp [e1, e2, h1, h2]
    unfold Key.beq
    rw [hc1]
    simp [h1, h2]

/-- Claim C8 witness: two keys with table id 7 and key byte `0x00`, both
carrying the (valid) cached hash 8 of the concrete hash function, compare
equal. -/
theorem Key.beq_iff_eq_fields_inst :
    Key.beq ⟨7, [0], some 8⟩ ⟨7, [0], some 8⟩ = true :=
  (Key.beq_iff_eq_fields (fun k s => (s + k.length, 0)) ⟨7, [0], some 8⟩
      ⟨7, [0], some 8⟩
      (fun h hh => by simp only [Option.some.injEq] at hh; subst hh; rfl)
      (fun h hh => by simp only [Option.some.injEq] at hh; subst hh; rfl)).mpr
    ⟨rfl, rfl⟩

/-- Claim C9 (confirmed): constructing a `Key` from a log entry succeeds
exactly for the `OBJECT` and `TOMBSTONE` entry types; any other type
(segment header, segment footer) throws `FatalError`, for every buffer and
every parsing of objects and tombstones. -/
theorem Key.fromLogEntry_ok_iff
    (parseObject parseTombstone : List (Fin 256) → Nat × List (Fin 256))
    (type : LogEntryType) (buffer : List (Fin 256)) :
    (∃ k, Key.fromLogEntry parseObject parseTombstone type buffer = .ok k) ↔
      (type = .LOG_ENTRY_TYPE_OBJ ∨ type = .LOG_ENTRY_TYPE_OBJTOMB) := by
  cases type <;> simp [Key.fromLogEntry]

end RAMCloud
